import Mathlib

/-!
Shallow embedding of the crix interaction core: store, widget tree,
input routing (src/main.rs), the Lua-backed action handler
(src/scripting/lua_handler.rs) and the app configuration loader
(src/scripting/app_config.rs).  Types of the `curvy::core` module
(Store, UiTree, widgets, events) are not part of the provided sources;
they are modelled from the specification and marked as such.
-/

namespace Crix

/-- Modelled from the spec (§3 Store): tagged store value
{String, Number (floating-point), Bool, Null}.  Floating-point numbers
are modelled as rationals. -/
inductive Value where
  | string (s : String)
  | number (n : ℚ)
  | bool (b : Bool)
  | null
  deriving Repr, DecidableEq

/-- Modelled from the spec (§3, §4.3 Store): mapping from string key to a
tagged value.  Newest binding is kept at the head; lookups see the newest
entry, so the list behaves as a map with unique keys. -/
def Store : Type := List (String × Value)

instance : DecidableEq Store := by
  unfold Store
  infer_instance

instance : Repr Store :=
  inferInstanceAs (Repr (List (String × Value)))

/-- Modelled from the spec (§4.3): `get(key) -> Option<&Value>`. -/
def Store.get (s : Store) (k : String) : Option Value :=
  (List.find? (fun p => p.1 == k) s).map (fun p => p.2)

/-- Modelled from the spec (§4.3): `set(key, value)`, insert or overwrite. -/
def Store.set (s : Store) (k : String) (v : Value) : Store :=
  (k, v) :: s

/-- Modelled from the spec (§4.3): `get_string` returns the string value,
or the empty string if the key is absent or not string-coercible. -/
def Store.get_string (s : Store) (k : String) : String :=
  match s.get k with
  | some (Value.string str) => str
  | _ => ""

/-- Modelled from the spec (§4.3): keys of the store (each key once). -/
def Store.keys (s : Store) : List String :=
  (s.map (fun p => p.1)).dedup

theorem Store.get_set_self (s : Store) (k : String) (v : Value) :
    (s.set k v).get k = some v := by
  simp [Store.get, Store.set, List.find?]

theorem Store.get_set_ne (s : Store) (k k' : String) (v : Value)
    (h : k' ≠ k) : (s.set k v).get k' = s.get k' := by
  have hb : (k == k') = false := by
    simp [beq_iff_eq]
    exact fun he => h he.symm
  simp [Store.get, Store.set, List.find?, hb]

/-- Opaque handle into the tree arena; modelled as the arena index. -/
abbrev NodeId := Nat

/-- Modelled from the spec (§3 Widget): TextInput state.  It carries the
edited text, an optional Store binding and a dirty flag.  Cursor position
is abstracted away: no claimed property depends on it. -/
structure TextInput where
  text : String
  binding : Option String
  dirty : Bool
  deriving Repr, DecidableEq

/-- Modelled from the spec (§3 Widget): StaticText display widget with
its displayed content and an optional Store binding. -/
structure StaticText where
  content : String
  binding : Option String
  deriving Repr, DecidableEq

/-- Modelled from the spec (§3 Widget): skin button carrying an optional
associated action name. -/
structure SkinButton where
  action : Option String
  deriving Repr, DecidableEq

/-- Modelled from the spec (§3 Widget): closed variant set of widgets. -/
inductive Widget where
  | textInput (ti : TextInput)
  | staticText (st : StaticText)
  | button (b : SkinButton)
  | container
  deriving Repr, DecidableEq

/-- Key codes of the closed widget event vocabulary (§6). -/
inductive KeyCode where
  | Backspace
  | Delete
  | Left
  | Right
  | Home
  | End
  | Enter
  deriving Repr, DecidableEq

/-- Widget event vocabulary (§6): Click, FocusGained, FocusLost,
KeyDown, CharInput. -/
inductive WidgetEvent where
  | Click
  | FocusGained
  | FocusLost
  | KeyDown (key : KeyCode)
  | CharInput (c : Char)
  deriving Repr, DecidableEq

/-- Modelled from the spec (§4.2): each widget variant reacts to
delivered events privately; TextInput mutates its text on
character/key events and sets its dirty flag, the other variants keep
their state.  The exact edit semantics are not specified and no claimed
property depends on them. -/
def Widget.on_event (w : Widget) (ev : WidgetEvent) : Widget :=
  match w with
  | Widget.textInput ti =>
    match ev with
    | WidgetEvent.CharInput c =>
        Widget.textInput { ti with text := ti.text.push c, dirty := true }
    | WidgetEvent.KeyDown KeyCode.Backspace =>
        Widget.textInput { ti with text := ti.text.dropRight 1, dirty := true }
    | _ => w
  | _ => w

/-- Modelled from the spec (§3 Node): a node owns exactly one widget.
Children, parent link and bounds are omitted: no claimed property
involves tree structure or hit testing. -/
structure Node where
  widget : Widget
  deriving Repr, DecidableEq

/-- Modelled from the spec (§3): arena of nodes plus the three optional
interaction roles hovered/pressed/focused. -/
structure UiTree where
  nodes : List Node
  hovered : Option NodeId
  pressed : Option NodeId
  focused : Option NodeId
  deriving Repr, DecidableEq

/-- Deliver one widget event to the node `id` if it exists
(`if let Some(node) = self.tree.get_mut(id) { node.widget_mut().on_event(ev) }`),
returning the updated tree and the list of delivered events. -/
def deliver (tree : UiTree) (id : NodeId) (ev : WidgetEvent) :
    UiTree × List (NodeId × WidgetEvent) :=
  match tree.nodes[id]? with
  | some node =>
      ({ tree with nodes := tree.nodes.set id { node with widget := node.widget.on_event ev } },
       [(id, ev)])
  | none => (tree, [])

/-- Per-node step of `SkinApp::sync_inputs_to_store` (src/main.rs:56-67):
a dirty TextInput writes its text at its binding key (when bound) and
clears its dirty flag; every other node is untouched. -/
def syncInputNode (n : Node) (store : Store) : Node × Store :=
  match n.widget with
  | Widget.textInput ti =>
    if ti.dirty then
      let store' :=
        match ti.binding with
        | some b => store.set b (Value.string ti.text)
        | none => store
      ({ widget := Widget.textInput { ti with dirty := false } }, store')
    else (n, store)
  | _ => (n, store)

/-- Fold of `syncInputNode` over the node list in id order, threading the
store (src/main.rs:53-69). -/
def syncInputNodes : List Node → Store → List Node × Store
  | [], store => ([], store)
  | n :: rest, store =>
    let hd := syncInputNode n store
    let tl := syncInputNodes rest hd.2
    (hd.1 :: tl.1, tl.2)

/-- `SkinApp::sync_inputs_to_store` (src/main.rs:52-69). -/
def sync_inputs_to_store (tree : UiTree) (store : Store) : UiTree × Store :=
  let r := syncInputNodes tree.nodes store
  ({ tree with nodes := r.1 }, r.2)

/-- Per-node step of `SkinApp::sync_store_to_outputs` (src/main.rs:75-86):
a bound StaticText takes the store's string value when it is non-empty
and differs from the current content. -/
def syncOutputNode (store : Store) (n : Node) : Node :=
  match n.widget with
  | Widget.staticText st =>
    match st.binding with
    | some b =>
      let value := store.get_string b
      if value ≠ "" ∧ value ≠ st.content then
        { widget := Widget.staticText { st with content := value } }
      else n
    | none => n
  | _ => n

/-- `SkinApp::sync_store_to_outputs` (src/main.rs:71-87). -/
def sync_store_to_outputs (tree : UiTree) (store : Store) : UiTree :=
  { tree with nodes := tree.nodes.map (syncOutputNode store) }

/-- `SkinApp::get_button_action` (src/main.rs:97-106): the optional
action name of the node's widget, present only for SkinButton widgets. -/
def get_button_action (tree : UiTree) (id : NodeId) : Option String :=
  match tree.nodes[id]? with
  | some node =>
    match node.widget with
    | Widget.button b => b.action
    | _ => none
  | none => none

/-- The mutable application state threaded through `SkinApp::on_event`:
the widget tree and the store (dispatcher and services are parameters of
the event functions below). -/
structure SkinApp where
  tree : UiTree
  store : Store
  deriving Repr, DecidableEq

/-- Result of processing one window event: the updated application
state, the widget events delivered (in order), whether the event was
consumed (the Bool returned by `on_event`), and the names of the actions
dispatched. -/
structure EventResult where
  app : SkinApp
  trace : List (NodeId × WidgetEvent)
  consumed : Bool
  dispatched : List String
  deriving Repr, DecidableEq

/-- `WindowEvent::MouseInput` with `ElementState::Pressed`
(src/main.rs:123-153): when a node is hovered it becomes pressed and,
if it is not already focused, the old focused widget receives FocusLost,
focus moves to the hovered node and it receives FocusGained; on empty
space the old focused widget receives FocusLost and focus is cleared. -/
def onPointerPress (app : SkinApp) : EventResult :=
  match app.tree.hovered with
  | some h =>
    let t1 := { app.tree with pressed := some h }
    if t1.focused = some h then
      { app := { app with tree := t1 }, trace := [], consumed := true, dispatched := [] }
    else
      let d1 :=
        match t1.focused with
        | some o => deliver t1 o WidgetEvent.FocusLost
        | none => (t1, [])
      let t3 := { d1.1 with focused := some h }
      let d2 := deliver t3 h WidgetEvent.FocusGained
      { app := { app with tree := d2.1 }, trace := d1.2 ++ d2.2,
        consumed := true, dispatched := [] }
  | none =>
    let d1 :=
      match app.tree.focused with
      | some o => deliver app.tree o WidgetEvent.FocusLost
      | none => (app.tree, [])
    let t3 := { d1.1 with focused := none }
    { app := { app with tree := t3 }, trace := d1.2, consumed := true, dispatched := [] }

/-- `WindowEvent::MouseInput` with `ElementState::Released`
(src/main.rs:154-178).  `dispatchFn` stands for the effect of
`SkinApp::dispatch_action` on the store; the function is parametric in
it.  When the pressed node is still hovered it receives Click and, if
its widget names an action, inputs are synced, the action dispatched and
outputs synced; pressed is cleared unconditionally. -/
def onPointerRelease (dispatchFn : String → Store → Store) (app : SkinApp) : EventResult :=
  match app.tree.pressed with
  | some p =>
    if app.tree.hovered = some p then
      let action := get_button_action app.tree p
      let d := deliver app.tree p WidgetEvent.Click
      match action with
      | some name =>
        let s := sync_inputs_to_store d.1 app.store
        let s2 := dispatchFn name s.2
        let t3 := sync_store_to_outputs s.1 s2
        { app := { tree := { t3 with pressed := none }, store := s2 },
          trace := d.2, consumed := true, dispatched := [name] }
      | none =>
        { app := { tree := { d.1 with pressed := none }, store := app.store },
          trace := d.2, consumed := true, dispatched := [] }
    else
      { app := { tree := { app.tree with pressed := none }, store := app.store },
        trace := [], consumed := true, dispatched := [] }
  | none =>
    { app := { tree := { app.tree with pressed := none }, store := app.store },
      trace := [], consumed := true, dispatched := [] }

/-- Named keys of the host windowing layer that `on_event` inspects
(winit `NamedKey`); `Other` stands for every other named key. -/
inductive NamedKey where
  | Backspace
  | Delete
  | ArrowLeft
  | ArrowRight
  | Home
  | End
  | Enter
  | Space
  | Other
  deriving Repr, DecidableEq

/-- Raw logical key of a keyboard event (winit `Key`); `Other` stands
for the remaining key kinds matched by the final wildcard arm. -/
inductive Key where
  | Named (n : NamedKey)
  | Character (s : String)
  | Other
  deriving Repr, DecidableEq

/-- The key-vocabulary mapping of src/main.rs:189-228.  The source
guards `Key::Character(s)` with `s.len() == 1` (one UTF-8 byte) before
checking the printable range 32..=126; matching a single char and then
checking the range is extensionally the same, because every char in
that range is one byte and a multi-byte char fails the range check. -/
def mapKey (key : Key) : Option WidgetEvent :=
  match key with
  | Key.Named NamedKey.Backspace => some (WidgetEvent.KeyDown KeyCode.Backspace)
  | Key.Named NamedKey.Delete => some (WidgetEvent.KeyDown KeyCode.Delete)
  | Key.Named NamedKey.ArrowLeft => some (WidgetEvent.KeyDown KeyCode.Left)
  | Key.Named NamedKey.ArrowRight => some (WidgetEvent.KeyDown KeyCode.Right)
  | Key.Named NamedKey.Home => some (WidgetEvent.KeyDown KeyCode.Home)
  | Key.Named NamedKey.End => some (WidgetEvent.KeyDown KeyCode.End)
  | Key.Named NamedKey.Enter => some (WidgetEvent.KeyDown KeyCode.Enter)
  | Key.Character s =>
    match s.data with
    | [c] =>
      if 32 ≤ c.toNat ∧ c.toNat ≤ 126 then some (WidgetEvent.CharInput c) else none
    | _ => none
  | Key.Named NamedKey.Space => some (WidgetEvent.CharInput (Char.ofNat 32))
  | _ => none

/-- `WindowEvent::KeyboardInput` (src/main.rs:182-240): key-up events
return unconsumed at once; a key-down event is mapped through `mapKey`
and delivered to the focused widget, followed by an inputs→store sync;
otherwise the event is unconsumed. -/
def onKeyboardInput (app : SkinApp) (isPressed : Bool) (key : Key) : EventResult :=
  if isPressed = false then
    { app := app, trace := [], consumed := false, dispatched := [] }
  else
    match app.tree.focused with
    | some f =>
      match mapKey key with
      | some ev =>
        let d := deliver app.tree f ev
        let s := sync_inputs_to_store d.1 app.store
        { app := { tree := s.1, store := s.2 }, trace := d.2,
          consumed := true, dispatched := [] }
      | none =>
        { app := app, trace := [], consumed := false, dispatched := [] }
    | none =>
      { app := app, trace := [], consumed := false, dispatched := [] }

/-- Modelled from the Lua runtime boundary: the value kinds a Lua
variable can hold, as discriminated by the copy-back loop of
`LuaActionHandler::execute_script` (src/scripting/lua_handler.rs:226-239).
`Table` and `Function` stand for all non-primitive kinds hit by the
wildcard arm; numbers are modelled as rationals. -/
inductive LuaValue where
  | Str (s : String)
  | Number (n : ℚ)
  | Integer (i : ℤ)
  | Boolean (b : Bool)
  | Nil
  | Table
  | Function
  deriving Repr, DecidableEq

/-- Modelled from the Lua runtime boundary: a Lua table with string
keys, one entry per key. -/
abbrev LuaTable : Type := List (String × LuaValue)

/-- Modelled from the Lua runtime boundary: table assignment
`t[k] = v` replaces the entry at `k` when present, otherwise appends. -/
def LuaTable.set (t : LuaTable) (k : String) (v : LuaValue) : LuaTable :=
  if t.any (fun p => p.1 == k) then
    t.map (fun p => if p.1 == k then (k, v) else p)
  else
    t ++ [(k, v)]

/-- The three callable primitives `execute_script` exposes to a script
through the `app` table (src/scripting/lua_handler.rs:180-203): a
script run is modelled as the sequence of its `app` calls. -/
inductive ApiCall where
  | set (k : String) (v : LuaValue)
  | get (k : String)
  | log (msg : String)
  deriving Repr, DecidableEq

/-- The state visible while a script executes: the host store, the
buffered `output_data` table and the buffered `log_messages`. -/
structure ExecState where
  store : Store
  output : LuaTable
  logs : List String
  deriving Repr, DecidableEq

/-- One `app` call during script execution
(src/scripting/lua_handler.rs:180-203): `app.set` writes the buffered
output table, `app.get` reads the read-only snapshot (no state change),
`app.log` appends to the buffered log. -/
def apiStep (st : ExecState) (call : ApiCall) : ExecState :=
  match call with
  | ApiCall.set k v => { st with output := st.output.set k v }
  | ApiCall.get _ => st
  | ApiCall.log m => { st with logs := st.logs ++ [m] }

/-- The copy-in of src/scripting/lua_handler.rs:159-169: every current
store entry, mapped to its Lua counterpart, forms the read-only
snapshot table `store_data`. -/
def valueToLua (v : Value) : LuaValue :=
  match v with
  | Value.string s => LuaValue.Str s
  | Value.number n => LuaValue.Number n
  | Value.bool b => LuaValue.Boolean b
  | Value.null => LuaValue.Nil

/-- Snapshot table built from the store's keys
(src/scripting/lua_handler.rs:159-169). -/
def snapshotOf (s : Store) : LuaTable :=
  (Store.keys s).filterMap (fun k => (s.get k).map (fun v => (k, valueToLua v)))

/-- The type mapping of the copy-back loop
(src/scripting/lua_handler.rs:226-239): string→String,
floating/integer→Number, boolean→Bool, nil→Null; non-primitive values
map to none (dropped with a warning). -/
def luaToValue (v : LuaValue) : Option Value :=
  match v with
  | LuaValue.Str s => some (Value.string s)
  | LuaValue.Number n => some (Value.number n)
  | LuaValue.Integer i => some (Value.number (i : ℚ))
  | LuaValue.Boolean b => some (Value.bool b)
  | LuaValue.Nil => some Value.null
  | LuaValue.Table => none
  | LuaValue.Function => none

/-- The copy-back loop of src/scripting/lua_handler.rs:226-239: each
output-table entry is written to the store under the type mapping;
non-primitive entries are skipped. -/
def copyOutputs (out : LuaTable) (store : Store) : Store :=
  out.foldl
    (fun s p =>
      match luaToValue p.2 with
      | some w => s.set p.1 w
      | none => s)
    store

/-- `LuaActionHandler::execute_script` (src/scripting/lua_handler.rs:133-248)
over a script modelled as its sequence of `app` calls: run the calls
against the buffered tables, then copy the output table back into the
store. -/
def execute_script (calls : List ApiCall) (store : Store) : Store :=
  let st := calls.foldl apiStep { store := store, output := [], logs := [] }
  copyOutputs st.output st.store

/-- Errors of script execution (src/scripting/lua_handler.rs:56-65),
carrying their display text. -/
structure LuaErr where
  msg : String
  deriving Repr, DecidableEq

/-- Handler-level error type (`ActionError`); `LuaActionHandler::handle`
never produces one. -/
structure ActionError where
  msg : String
  deriving Repr, DecidableEq

/-- An action: a name plus payload (§3); the payload is irrelevant to
the claimed properties of `handle`. -/
structure Action where
  name : String
  deriving Repr, DecidableEq

/-- `LuaActionHandler` (src/scripting/lua_handler.rs:89-92): action
name → script path mappings. -/
structure LuaActionHandler where
  action_scripts : List (String × String)
  deriving Repr, DecidableEq

/-- `LuaActionHandler::get_script` (src/scripting/lua_handler.rs:120-122). -/
def LuaActionHandler.get_script (h : LuaActionHandler) (action_name : String) :
    Option String :=
  (List.find? (fun p => p.1 == action_name) h.action_scripts).map (fun p => p.2)

/-- `LuaActionHandler::handle` (src/scripting/lua_handler.rs:251-282),
parametric in the outcome of `execute_script` (`exec` returns the
possibly-mutated store plus an error when the script faulted): no
script → not claimed; fault → error entry written, still claimed. -/
def LuaActionHandler.handle
    (exec : String → Action → Store → Option LuaErr × Store)
    (h : LuaActionHandler) (action : Action) (store : Store) :
    Except ActionError Bool × Store :=
  match h.get_script action.name with
  | none => (Except.ok false, store)
  | some path =>
    let (err?, s') := exec path action store
    match err? with
    | none => (Except.ok true, s')
    | some e =>
      (Except.ok true,
       s'.set ("errors.action." ++ action.name)
         (Value.string ("Script error: " ++ e.msg)))

/-- `AppMeta` (src/scripting/app_config.rs:26-31). -/
structure AppMeta where
  name : String
  version : String
  deriving Repr, DecidableEq

/-- `AppToml` (src/scripting/app_config.rs:34-39): the parsed TOML,
with the actions table as an association list. -/
structure AppToml where
  app : AppMeta
  actions : List (String × String)
  deriving Repr, DecidableEq

/-- `AppConfigError` (src/scripting/app_config.rs:53-58).  The Io and
Toml variants belong to the file-reading/parsing stage, which the
embedding starts after; script validation produces `ScriptNotFound`. -/
inductive AppConfigError where
  | ScriptNotFound (action : String) (path : String)
  deriving Repr, DecidableEq

/-- `AppConfig` (src/scripting/app_config.rs:42-50). -/
structure AppConfig where
  meta : AppMeta
  action_scripts : List (String × String)
  base_path : String
  deriving Repr, DecidableEq

/-- The validation loop of `AppConfig::load`
(src/scripting/app_config.rs:101-111): resolve each action's script
path against the base directory and fail on the first path the
filesystem (`fs`) does not contain. -/
def resolveScripts (fs : String → Bool) (base : String) :
    List (String × String) → Except AppConfigError (List (String × String))
  | [] => Except.ok []
  | (action_name, rel) :: rest =>
    let script_path := base ++ "/" ++ rel
    if fs script_path then
      (resolveScripts fs base rest).map (fun tail => (action_name, script_path) :: tail)
    else
      Except.error (AppConfigError.ScriptNotFound action_name script_path)

/-- `AppConfig::load` (src/scripting/app_config.rs:94-118), after the
read/parse stage: `fs` models which paths exist on disk, `base` the
parent directory of app.toml. -/
def AppConfig.load (fs : String → Bool) (base : String) (toml : AppToml) :
    Except AppConfigError AppConfig :=
  (resolveScripts fs base toml.actions).map
    (fun scripts => { meta := toml.app, action_scripts := scripts, base_path := base })

/-- `AppConfig::get_script` (src/scripting/app_config.rs:123-125). -/
def AppConfig.get_script (cfg : AppConfig) (action_name : String) : Option String :=
  (List.find? (fun p => p.1 == action_name) cfg.action_scripts).map (fun p => p.2)

/-- The closed event vocabulary a raw key can map into (§4.2, §6):
editing/navigation keys or a printable ASCII character. -/
def inVocabulary (ev : WidgetEvent) : Prop :=
  (∃ k, ev = WidgetEvent.KeyDown k) ∨
  (∃ c, ev = WidgetEvent.CharInput c ∧ 32 ≤ c.toNat ∧ c.toNat ≤ 126)

/-- The node transformation performed by the inputs→store sync: dirty
TextInputs come out with a cleared dirty flag, all other nodes are
unchanged. -/
def cleanInputNode (n : Node) : Node :=
  match n.widget with
  | Widget.textInput ti =>
    if ti.dirty then { widget := Widget.textInput { ti with dirty := false } } else n
  | _ => n

/-- The (binding key, text) pairs the inputs→store sync writes, in
iteration order: one pair per dirty TextInput that has a binding. -/
def pendingWrites (nodes : List Node) : List (String × String) :=
  nodes.filterMap (fun n =>
    match n.widget with
    | Widget.textInput ti =>
      if ti.dirty then ti.binding.map (fun b => (b, ti.text)) else none
    | _ => none)

/-- Apply a list of (key, text) writes to the store, in order. -/
def applyWrites (ws : List (String × String)) (store : Store) : Store :=
  ws.foldl (fun s p => s.set p.1 (Value.string p.2)) store

/-- Clear the dirty flag of a TextInput that has no binding; every
other node is unchanged. -/
def scrubNode (n : Node) : Node :=
  match n.widget with
  | Widget.textInput ti =>
    match ti.binding with
    | none => { widget := Widget.textInput { ti with dirty := false } }
    | some _ => n
  | _ => n

/-- The tree with every binding-less TextInput's dirty flag cleared in
advance (used to state that such widgets contribute no store write). -/
def scrubUnbound (tree : UiTree) : UiTree :=
  { tree with nodes := tree.nodes.map scrubNode }

/-! ## Helper lemmas -/

theorem resolveScripts_ok_mem (fs : String → Bool) (base : String) :
    ∀ (l scripts : List (String × String)),
      resolveScripts fs base l = Except.ok scripts →
      ∀ p ∈ scripts, fs p.2 = true := by
  intro l
  induction l with
  | nil =>
    intro scripts h p hp
    simp [resolveScripts] at h
    subst h
    simp at hp
  | cons hd rest ih =>
    intro scripts h p hp
    obtain ⟨a, rel⟩ := hd
    by_cases hf : fs (base ++ "/" ++ rel) = true
    · simp [resolveScripts, hf] at h
      cases hrec : resolveScripts fs base rest with
      | error e => rw [hrec] at h; simp [Except.map] at h
      | ok tail =>
        rw [hrec] at h
        simp [Except.map] at h
        subst h
        rcases List.mem_cons.mp hp with h1 | h2
        · subst h1; exact hf
        · exact ih tail hrec p h2
    · simp [resolveScripts, hf] at h

theorem resolveScripts_err (fs : String → Bool) (base : String) :
    ∀ (l : List (String × String)),
      (∃ p ∈ l, fs (base ++ "/" ++ p.2) = false) →
      ∃ e, resolveScripts fs base l = Except.error e := by
  intro l
  induction l with
  | nil => rintro ⟨p, hp, _⟩; simp at hp
  | cons hd rest ih =>
    rintro ⟨p, hp, hpf⟩
    obtain ⟨a, rel⟩ := hd
    by_cases hf : fs (base ++ "/" ++ rel) = true
    · rcases List.mem_cons.mp hp with h1 | h2
      · subst h1; rw [hf] at hpf; cases hpf
      · obtain ⟨e, he⟩ := ih ⟨p, h2, hpf⟩
        refine ⟨e, ?_⟩
        simp [resolveScripts, hf, he, Except.map]
    · exact ⟨AppConfigError.ScriptNotFound a (base ++ "/" ++ rel),
        by simp [resolveScripts, hf]⟩

theorem syncInputNodes_spec (nodes : List Node) (store : Store) :
    syncInputNodes nodes store =
      (nodes.map cleanInputNode, applyWrites (pendingWrites nodes) store) := by
  induction nodes generalizing store with
  | nil => rfl
  | cons n rest ih =>
    obtain ⟨w⟩ := n
    cases w with
    | textInput ti =>
      obtain ⟨text, bnd, dirty⟩ := ti
      cases dirty with
      | false =>
        simp only [syncInputNodes, syncInputNode]
        rw [ih]
        simp [cleanInputNode, pendingWrites, applyWrites, List.filterMap_cons]
      | true =>
        cases bnd with
        | none =>
          simp only [syncInputNodes, syncInputNode]
          rw [ih]
          simp [cleanInputNode, pendingWrites, applyWrites, List.filterMap_cons]
        | some b =>
          simp only [syncInputNodes, syncInputNode]
          rw [ih]
          simp [cleanInputNode, pendingWrites, applyWrites, List.filterMap_cons]
    | staticText st =>
      simp only [syncInputNodes, syncInputNode]
      rw [ih]
      simp [cleanInputNode, pendingWrites, applyWrites, List.filterMap_cons]
    | button b =>
      simp only [syncInputNodes, syncInputNode]
      rw [ih]
      simp [cleanInputNode, pendingWrites, applyWrites, List.filterMap_cons]
    | container =>
      simp only [syncInputNodes, syncInputNode]
      rw [ih]
      simp [cleanInputNode, pendingWrites, applyWrites, List.filterMap_cons]

theorem applyWrites_get_of_not_mem (ws : List (String × String)) :
    ∀ (s : Store) (b : String), b ∉ ws.map Prod.fst →
      (applyWrites ws s).get b = s.get b := by
  induction ws with
  | nil => intro s b _; rfl
  | cons p rest ih =>
    intro s b hb
    obtain ⟨k, t⟩ := p
    simp only [List.map_cons, List.mem_cons] at hb
    push_neg at hb
    have : (applyWrites ((k, t) :: rest) s) = applyWrites rest (s.set k (Value.string t)) := rfl
    rw [this, ih _ b hb.2, Store.get_set_ne _ _ _ _ hb.1]

theorem applyWrites_get_of_mem (ws : List (String × String)) :
    ∀ (s : Store) (b t : String), (ws.map Prod.fst).Nodup → (b, t) ∈ ws →
      (applyWrites ws s).get b = some (Value.string t) := by
  induction ws with
  | nil => intro s b t _ hm; simp at hm
  | cons p rest ih =>
    intro s b t hnd hm
    obtain ⟨k, u⟩ := p
    simp only [List.map_cons, List.nodup_cons] at hnd
    have hstep : applyWrites ((k, u) :: rest) s
        = applyWrites rest (s.set k (Value.string u)) := rfl
    rcases List.mem_cons.mp hm with h1 | h2
    · obtain ⟨hbk, htu⟩ := Prod.mk.inj h1
      subst hbk; subst htu
      rw [hstep, applyWrites_get_of_not_mem rest _ b hnd.1, Store.get_set_self]
    · have hbk : b ≠ k := by
        intro he
        subst he
        exact hnd.1 (List.mem_map.mpr ⟨(b, t), h2, rfl⟩)
      rw [hstep]
      exact ih _ b t hnd.2 h2

theorem pendingWrites_scrubList (nodes : List Node) :
    pendingWrites (nodes.map scrubNode) = pendingWrites nodes := by
  induction nodes with
  | nil => rfl
  | cons n rest ih =>
    obtain ⟨w⟩ := n
    cases w with
    | textInput ti =>
      obtain ⟨text, bnd, dirty⟩ := ti
      cases bnd <;> cases dirty <;>
        simpa [pendingWrites, scrubNode, List.filterMap_cons] using ih
    | staticText st =>
      simpa [pendingWrites, scrubNode, List.filterMap_cons] using ih
    | button b =>
      simpa [pendingWrites, scrubNode, List.filterMap_cons] using ih
    | container =>
      simpa [pendingWrites, scrubNode, List.filterMap_cons] using ih

theorem foldl_apiStep_store (calls : List ApiCall) :
    ∀ st : ExecState, (calls.foldl apiStep st).store = st.store := by
  induction calls with
  | nil => intro st; rfl
  | cons c rest ih =>
    intro st
    rw [List.foldl_cons, ih]
    cases c <;> rfl

theorem keys_table_set (t : LuaTable) (k : String) (v : LuaValue) :
    (LuaTable.set t k v).map Prod.fst
      = if t.any (fun p => p.1 == k) then t.map Prod.fst
        else t.map Prod.fst ++ [k] := by
  unfold LuaTable.set
  split
  · rw [List.map_map]
    apply List.map_congr_left
    intro p hp
    by_cases hpk : (p.1 == k) = true
    · have hk : p.1 = k := by simpa using hpk
      simp [Function.comp, hpk, hk]
    · simp [Function.comp, hpk]
  · simp

theorem nodup_keys_table_set (t : LuaTable) (k : String) (v : LuaValue)
    (h : (t.map Prod.fst).Nodup) :
    ((LuaTable.set t k v).map Prod.fst).Nodup := by
  rw [keys_table_set]
  split
  · exact h
  next hany =>
    have hk : k ∉ t.map Prod.fst := by
      intro hmem
      obtain ⟨p, hp, hpk⟩ := List.mem_map.mp hmem
      exact hany (List.any_eq_true.mpr ⟨p, hp, by simp [hpk]⟩)
    simp [List.nodup_append, h, hk]

theorem output_keys_nodup (calls : List ApiCall) :
    ∀ st : ExecState, (st.output.map Prod.fst).Nodup →
      ((calls.foldl apiStep st).output.map Prod.fst).Nodup := by
  induction calls with
  | nil => intro st h; exact h
  | cons c rest ih =>
    intro st h
    rw [List.foldl_cons]
    apply ih
    cases c with
    | set k v => exact nodup_keys_table_set _ _ _ h
    | get k => exact h
    | log m => exact h

theorem copyOutputs_get_of_not_mem (out : LuaTable) :
    ∀ (s : Store) (b : String), b ∉ out.map Prod.fst →
      (copyOutputs out s).get b = s.get b := by
  induction out with
  | nil => intro s b _; rfl
  | cons p rest ih =>
    intro s b hb
    obtain ⟨k, v⟩ := p
    simp only [List.map_cons, List.mem_cons] at hb
    push_neg at hb
    cases hv : luaToValue v with
    | some w =>
      have hstep : copyOutputs ((k, v) :: rest) s = copyOutputs rest (s.set k w) := by
        simp [copyOutputs, hv]
      rw [hstep, ih _ b hb.2, Store.get_set_ne _ _ _ _ hb.1]
    | none =>
      have hstep : copyOutputs ((k, v) :: rest) s = copyOutputs rest s := by
        simp [copyOutputs, hv]
      rw [hstep, ih _ b hb.2]

theorem copyOutputs_get_of_mem (out : LuaTable) :
    ∀ (s : Store) (b : String) (v : LuaValue),
      (out.map Prod.fst).Nodup → (b, v) ∈ out →
      (copyOutputs out s).get b
        = (match luaToValue v with
           | some w => some w
           | none => s.get b) := by
  induction out with
  | nil => intro s b v _ hm; simp at hm
  | cons p rest ih =>
    intro s b v hnd hm
    obtain ⟨k, u⟩ := p
    simp only [List.map_cons, List.nodup_cons] at hnd
    rcases List.mem_cons.mp hm with h1 | h2
    · obtain ⟨hbk, hvu⟩ := Prod.mk.inj h1
      subst hbk; subst hvu
      cases hv : luaToValue v with
      | some w =>
        have hstep : copyOutputs ((b, v) :: rest) s = copyOutputs rest (s.set b w) := by
          simp [copyOutputs, hv]
        rw [hstep, copyOutputs_get_of_not_mem rest _ b hnd.1, Store.get_set_self]
      | none =>
        have hstep : copyOutputs ((b, v) :: rest) s = copyOutputs rest s := by
          simp [copyOutputs, hv]
        rw [hstep, copyOutputs_get_of_not_mem rest _ b hnd.1]
    · have hbk : b ≠ k := by
        intro he
        subst he
        exact hnd.1 (List.mem_map.mpr ⟨(b, v), h2, rfl⟩)
      cases hu : luaToValue u with
      | some w =>
        have hstep : copyOutputs ((k, u) :: rest) s = copyOutputs rest (s.set k w) := by
          simp [copyOutputs, hu]
        rw [hstep, ih _ b v hnd.2 h2]
        cases hv : luaToValue v with
        | some w2 => rfl
        | none => exact Store.get_set_ne _ _ _ _ hbk
      | none =>
        have hstep : copyOutputs ((k, u) :: rest) s = copyOutputs rest s := by
          simp [copyOutputs, hu]
        rw [hstep, ih _ b v hnd.2 h2]

/-! ## Claim theorems -/

/-- C2: `LuaActionHandler::handle`: an action with no associated script
returns Ok(false) with the store untouched; when the script execution
faults the fault is absorbed, a diagnostic entry is written under
`errors.action.<name>` and handle still returns Ok(true); a successful
execution returns Ok(true) with the script's store. -/
theorem lua_handle_claims
    (exec : String → Action → Store → Option LuaErr × Store)
    (h : LuaActionHandler) (action : Action) (store : Store) :
    (h.get_script action.name = none →
       LuaActionHandler.handle exec h action store = (Except.ok false, store))
    ∧ (∀ path, h.get_script action.name = some path →
        (∀ s', exec path action store = (none, s') →
           LuaActionHandler.handle exec h action store = (Except.ok true, s'))
        ∧ (∀ e s', exec path action store = (some e, s') →
            (LuaActionHandler.handle exec h action store).1 = Except.ok true
            ∧ (LuaActionHandler.handle exec h action store).2.get
                ("errors.action." ++ action.name)
              = some (Value.string ("Script error: " ++ e.msg)))) := by
  refine ⟨?_, ?_⟩
  · intro h0
    simp [LuaActionHandler.handle, h0]
  · intro path hp
    refine ⟨?_, ?_⟩
    · intro s' he
      simp [LuaActionHandler.handle, hp, he]
    · intro e s' he
      refine ⟨?_, ?_⟩
      · simp [LuaActionHandler.handle, hp, he]
      · simp [LuaActionHandler.handle, hp, he, Store.get_set_self]

/-- C2 witness: concrete instances of the three branches of
`lua_handle_claims`. -/
theorem lua_handle_claims_witness :
    (LuaActionHandler.handle (fun _ _ s => (none, s)) ⟨[]⟩ ⟨"go"⟩ []
      = (Except.ok false, []))
    ∧ (LuaActionHandler.handle (fun _ _ s => (some ⟨"boom"⟩, s))
         ⟨[("go", "a/go.lua")]⟩ ⟨"go"⟩ []).1 = Except.ok true
    ∧ (LuaActionHandler.handle (fun _ _ s => (some ⟨"boom"⟩, s))
         ⟨[("go", "a/go.lua")]⟩ ⟨"go"⟩ []).2.get "errors.action.go"
        = some (Value.string "Script error: boom") := by
  refine ⟨?_, ?_, ?_⟩
  · exact (lua_handle_claims (fun _ _ s => (none, s)) ⟨[]⟩ ⟨"go"⟩ []).1 rfl
  · exact (((lua_handle_claims (fun _ _ s => (some ⟨"boom"⟩, s))
      ⟨[("go", "a/go.lua")]⟩ ⟨"go"⟩ []).2 "a/go.lua" rfl).2 ⟨"boom"⟩ [] rfl).1
  · exact (((lua_handle_claims (fun _ _ s => (some ⟨"boom"⟩, s))
      ⟨[("go", "a/go.lua")]⟩ ⟨"go"⟩ []).2 "a/go.lua" rfl).2 ⟨"boom"⟩ [] rfl).2

/-- C8: `AppConfig::load` fails when any action's referenced script
file does not exist; on success every action name maps to a script path
that existed at load time. -/
theorem app_config_load_validates (fs : String → Bool) (base : String)
    (toml : AppToml) :
    (∀ cfg, AppConfig.load fs base toml = Except.ok cfg →
       ∀ a p, cfg.get_script a = some p → fs p = true)
    ∧ ((∃ pr ∈ toml.actions, fs (base ++ "/" ++ pr.2) = false) →
        ∃ e, AppConfig.load fs base toml = Except.error e) := by
  refine ⟨?_, ?_⟩
  · intro cfg hload a p hget
    cases hres : resolveScripts fs base toml.actions with
    | error e =>
      simp [AppConfig.load, hres, Except.map] at hload
    | ok scripts =>
      simp [AppConfig.load, hres, Except.map] at hload
      subst hload
      simp only [AppConfig.get_script] at hget
      obtain ⟨pr, hfind, hp2⟩ :
          ∃ pr, List.find? (fun q => q.1 == a) scripts = some pr ∧ pr.2 = p := by
        cases hfd : List.find? (fun q => q.1 == a) scripts with
        | none => rw [hfd] at hget; simp at hget
        | some pr =>
          rw [hfd] at hget
          simp only [Option.map_some'] at hget
          exact ⟨pr, rfl, Option.some.inj hget⟩
      have hmem := List.mem_of_find?_eq_some hfind
      have := resolveScripts_ok_mem fs base toml.actions scripts hres pr hmem
      rw [hp2] at this
      exact this
  · intro hex
    obtain ⟨e, he⟩ := resolveScripts_err fs base toml.actions hex
    exact ⟨e, by simp [AppConfig.load, he, Except.map]⟩

/-- C8 witness: a one-action configuration loads against a filesystem
containing its script and the loaded path exists; against an empty
filesystem loading fails. -/
theorem app_config_load_validates_witness :
    ((fun p => p == "app/actions/go.lua") "app/actions/go.lua" = true)
    ∧ (∃ e, AppConfig.load (fun _ => false) "app"
        ⟨⟨"demo", "1.0"⟩, [("go", "actions/go.lua")]⟩ = Except.error e) := by
  refine ⟨?_, ?_⟩
  · have := (app_config_load_validates (fun p => p == "app/actions/go.lua") "app"
      ⟨⟨"demo", "1.0"⟩, [("go", "actions/go.lua")]⟩).1
      ⟨⟨"demo", "1.0"⟩, [("go", "app/actions/go.lua")], "app"⟩ rfl
      "go" "app/actions/go.lua" rfl
    exact this
  · exact (app_config_load_validates (fun _ => false) "app"
      ⟨⟨"demo", "1.0"⟩, [("go", "actions/go.lua")]⟩).2
      ⟨("go", "actions/go.lua"), by simp, rfl⟩

/-- C6: after one store→outputs sync, a bound StaticText's content is
replaced by the store's string value exactly when that value is
non-empty and differs from the current content; unbound StaticTexts and
non-StaticText widgets are unchanged. -/
theorem store_to_outputs_spec (tree : UiTree) (store : Store) :
    (∀ (id : Nat) (st : StaticText) (b : String),
       tree.nodes[id]? = some ⟨Widget.staticText st⟩ →
       st.binding = some b →
       (sync_store_to_outputs tree store).nodes[id]? =
         some ⟨Widget.staticText { st with content :=
           (if store.get_string b ≠ "" ∧ store.get_string b ≠ st.content
            then store.get_string b else st.content) }⟩)
    ∧ (∀ (id : Nat) (st : StaticText),
         tree.nodes[id]? = some ⟨Widget.staticText st⟩ →
         st.binding = none →
         (sync_store_to_outputs tree store).nodes[id]? =
           some ⟨Widget.staticText st⟩)
    ∧ (∀ (id : Nat) (n : Node), tree.nodes[id]? = some n →
         (∀ st, n.widget ≠ Widget.staticText st) →
         (sync_store_to_outputs tree store).nodes[id]? = some n) := by
  refine ⟨?_, ?_, ?_⟩
  · intro id st b hid hb
    obtain ⟨c, bnd⟩ := st
    simp only at hb
    subst hb
    simp [sync_store_to_outputs, List.getElem?_map, hid, syncOutputNode]
    split
    · simp
    · rfl
  · intro id st hid hb
    simp [sync_store_to_outputs, List.getElem?_map, hid, syncOutputNode, hb]
  · intro id n hid hw
    obtain ⟨w⟩ := n
    simp [sync_store_to_outputs, List.getElem?_map, hid]
    cases w with
    | staticText st => exact absurd rfl (hw st)
    | textInput ti => rfl
    | button b => rfl
    | container => rfl

/-- C6 witness: a two-node tree where a bound StaticText picks up the
store value and an unbound one is unchanged. -/
theorem store_to_outputs_spec_witness :
    (sync_store_to_outputs
        ⟨[⟨Widget.staticText ⟨"old", some "k"⟩⟩, ⟨Widget.staticText ⟨"keep", none⟩⟩],
         none, none, none⟩
        [("k", Value.string "new")]).nodes[0]? =
      some ⟨Widget.staticText ⟨"new", some "k"⟩⟩
    ∧ (sync_store_to_outputs
        ⟨[⟨Widget.staticText ⟨"old", some "k"⟩⟩, ⟨Widget.staticText ⟨"keep", none⟩⟩],
         none, none, none⟩
        [("k", Value.string "new")]).nodes[1]? =
      some ⟨Widget.staticText ⟨"keep", none⟩⟩ := by
  refine ⟨?_, ?_⟩
  · have h := (store_to_outputs_spec
      ⟨[⟨Widget.staticText ⟨"old", some "k"⟩⟩, ⟨Widget.staticText ⟨"keep", none⟩⟩],
       none, none, none⟩ [("k", Value.string "new")]).1 0 ⟨"old", some "k"⟩ "k"
      rfl rfl
    rw [h]
    decide
  · exact (store_to_outputs_spec
      ⟨[⟨Widget.staticText ⟨"old", some "k"⟩⟩, ⟨Widget.staticText ⟨"keep", none⟩⟩],
       none, none, none⟩ [("k", Value.string "new")]).2.1 1 ⟨"keep", none⟩
      rfl rfl

/-- C1: for a pointer release with pressed = Some(p) and hovered still
Some(p), exactly one Click is delivered to node p's widget and the
dispatch sequence runs exactly when the widget names an action; and
after every pointer release, whatever the branch taken, pressed is
None. -/
theorem pointer_release_click (dispatchFn : String → Store → Store) :
    (∀ app : SkinApp, (onPointerRelease dispatchFn app).app.tree.pressed = none)
    ∧ (∀ (app : SkinApp) (p : NodeId),
        app.tree.pressed = some p → app.tree.hovered = some p →
        p < app.tree.nodes.length →
        (onPointerRelease dispatchFn app).trace = [(p, WidgetEvent.Click)]
        ∧ (onPointerRelease dispatchFn app).dispatched
            = (get_button_action app.tree p).toList) := by
  constructor
  · intro app
    unfold onPointerRelease
    cases hp : app.tree.pressed with
    | none => rfl
    | some p =>
      by_cases hh : app.tree.hovered = some p
      · simp only [hh, if_pos rfl]
        cases get_button_action app.tree p <;> rfl
      · simp only [if_neg hh]
  · intro app p hp hh hlen
    have hnode : app.tree.nodes[p]? = some (app.tree.nodes.get ⟨p, hlen⟩) :=
      List.getElem?_eq_getElem hlen
    unfold onPointerRelease
    rw [hp]
    simp only [hh, if_pos rfl]
    unfold deliver
    rw [hnode]
    cases get_button_action app.tree p <;> simp [Option.toList]

/-- C1 witness: a single-button tree with the button pressed and
hovered; the release delivers one Click, dispatches its action and
clears pressed. -/
theorem pointer_release_click_witness :
    ((onPointerRelease (fun _ s => s)
        ⟨⟨[⟨Widget.button ⟨some "go"⟩⟩], some 0, some 0, none⟩, []⟩).app.tree.pressed
      = none)
    ∧ (onPointerRelease (fun _ s => s)
        ⟨⟨[⟨Widget.button ⟨some "go"⟩⟩], some 0, some 0, none⟩, []⟩).trace
      = [(0, WidgetEvent.Click)]
    ∧ (onPointerRelease (fun _ s => s)
        ⟨⟨[⟨Widget.button ⟨some "go"⟩⟩], some 0, some 0, none⟩, []⟩).dispatched
      = ["go"] := by
  refine ⟨?_, ?_, ?_⟩
  · exact (pointer_release_click (fun _ s => s)).1
      ⟨⟨[⟨Widget.button ⟨some "go"⟩⟩], some 0, some 0, none⟩, []⟩
  · exact ((pointer_release_click (fun _ s => s)).2
      ⟨⟨[⟨Widget.button ⟨some "go"⟩⟩], some 0, some 0, none⟩, []⟩ 0
      rfl rfl (by decide)).1
  · have h := ((pointer_release_click (fun _ s => s)).2
      ⟨⟨[⟨Widget.button ⟨some "go"⟩⟩], some 0, some 0, none⟩, []⟩ 0
      rfl rfl (by decide)).2
    rw [h]
    rfl

/-- C9: a pointer release on a pressed-and-still-hovered node whose
widget has no action name dispatches nothing, leaves the store exactly
unchanged and changes the tree only by the Click delivery and by
clearing pressed (no binding sync runs). -/
theorem release_without_action (dispatchFn : String → Store → Store)
    (app : SkinApp) (p : NodeId)
    (hp : app.tree.pressed = some p) (hh : app.tree.hovered = some p)
    (ha : get_button_action app.tree p = none) :
    (onPointerRelease dispatchFn app).app.store = app.store
    ∧ (onPointerRelease dispatchFn app).dispatched = []
    ∧ (onPointerRelease dispatchFn app).app.tree
        = { (deliver app.tree p WidgetEvent.Click).1 with pressed := none } := by
  unfold onPointerRelease
  rw [hp]
  simp only [hh, if_pos rfl, ha]
  exact ⟨rfl, rfl, rfl⟩

/-- C9 witness: releasing on a pressed, hovered, actionless container
leaves the store unchanged and dispatches nothing. -/
theorem release_without_action_witness :
    (onPointerRelease (fun _ s => s.set "touched" Value.null)
        ⟨⟨[⟨Widget.container⟩], some 0, some 0, none⟩,
         [("x", Value.number 1)]⟩).app.store = [("x", Value.number 1)]
    ∧ (onPointerRelease (fun _ s => s.set "touched" Value.null)
        ⟨⟨[⟨Widget.container⟩], some 0, some 0, none⟩,
         [("x", Value.number 1)]⟩).dispatched = [] := by
  have h := release_without_action (fun _ s => s.set "touched" Value.null)
    ⟨⟨[⟨Widget.container⟩], some 0, some 0, none⟩, [("x", Value.number 1)]⟩ 0
    rfl rfl rfl
  exact ⟨h.1, h.2.1⟩

/-- C3: on pointer press over a hovered node h, pressed becomes Some(h)
and, when h was not already focused, FocusLost is delivered to the old
focused widget (if any) before FocusGained is delivered to h and focus
moves to h; on a press over empty space FocusLost is delivered to the
old focused widget (if any), focus is cleared and pressed is untouched.
Focus is a single optional field, so at most one node is focused. -/
theorem pointer_press_focus (app : SkinApp)
    (hfoc : ∀ o, app.tree.focused = some o → o < app.tree.nodes.length) :
    (∀ h : NodeId, app.tree.hovered = some h → h < app.tree.nodes.length →
       (onPointerPress app).app.tree.pressed = some h
       ∧ (app.tree.focused = some h →
            (onPointerPress app).app.tree.focused = some h
            ∧ (onPointerPress app).trace = [])
       ∧ (app.tree.focused ≠ some h →
            (onPointerPress app).app.tree.focused = some h
            ∧ (onPointerPress app).trace =
                (match app.tree.focused with
                 | some o => [(o, WidgetEvent.FocusLost)]
                 | none => []) ++ [(h, WidgetEvent.FocusGained)]))
    ∧ (app.tree.hovered = none →
         (onPointerPress app).app.tree.pressed = app.tree.pressed
         ∧ (onPointerPress app).app.tree.focused = none
         ∧ (onPointerPress app).trace =
             (match app.tree.focused with
              | some o => [(o, WidgetEvent.FocusLost)]
              | none => [])) := by
  obtain ⟨⟨nodes, hov, prs, foc⟩, store⟩ := app
  have hfoc' : ∀ o, foc = some o → o < nodes.length := hfoc
  constructor
  · intro h hh hlen
    have hh' : hov = some h := hh
    have hlen' : h < nodes.length := hlen
    subst hh'
    cases foc with
    | none =>
      refine ⟨?_, fun hc => Option.noConfusion hc, fun _ => ⟨?_, ?_⟩⟩
      · simp [onPointerPress, deliver, List.getElem?_eq_getElem hlen']
      · simp [onPointerPress, deliver, List.getElem?_eq_getElem hlen']
      · simp [onPointerPress, deliver, List.getElem?_eq_getElem hlen']
    | some o =>
      by_cases heq : o = h
      · subst heq
        refine ⟨?_, fun _ => ⟨?_, ?_⟩, fun hne => absurd rfl hne⟩
        · simp [onPointerPress]
        · simp [onPointerPress]
        · simp [onPointerPress]
      · have holen : o < nodes.length := hfoc' o rfl
        refine ⟨?_, fun hc => absurd (Option.some.inj hc) heq,
          fun _ => ⟨?_, ?_⟩⟩
        · simp [onPointerPress, deliver, heq,
            List.getElem?_eq_getElem holen, List.getElem?_set_ne, hlen',
            List.getElem?_eq_getElem hlen']
        · simp [onPointerPress, deliver, heq,
            List.getElem?_eq_getElem holen, List.getElem?_set_ne, hlen',
            List.getElem?_eq_getElem hlen']
        · simp [onPointerPress, deliver, heq,
            List.getElem?_eq_getElem holen, List.getElem?_set_ne, hlen',
            List.getElem?_eq_getElem hlen']
  · intro hh
    have hh' : hov = none := hh
    subst hh'
    cases foc with
    | none => exact ⟨rfl, rfl, rfl⟩
    | some o =>
      have holen : o < nodes.length := hfoc' o rfl
      refine ⟨?_, ?_, ?_⟩
      · simp [onPointerPress, deliver, List.getElem?_eq_getElem holen]
      · simp [onPointerPress, deliver, List.getElem?_eq_getElem holen]
      · simp [onPointerPress, deliver, List.getElem?_eq_getElem holen]

/-- C3 witness: pressing over node 1 while node 0 is focused delivers
FocusLost to 0 then FocusGained to 1, sets pressed and moves focus. -/
theorem pointer_press_focus_witness :
    ((onPointerPress
        ⟨⟨[⟨Widget.textInput ⟨"", none, false⟩⟩, ⟨Widget.container⟩],
          some 1, none, some 0⟩, []⟩).app.tree.pressed = some 1)
    ∧ (onPointerPress
        ⟨⟨[⟨Widget.textInput ⟨"", none, false⟩⟩, ⟨Widget.container⟩],
          some 1, none, some 0⟩, []⟩).app.tree.focused = some 1
    ∧ (onPointerPress
        ⟨⟨[⟨Widget.textInput ⟨"", none, false⟩⟩, ⟨Widget.container⟩],
          some 1, none, some 0⟩, []⟩).trace
      = [(0, WidgetEvent.FocusLost), (1, WidgetEvent.FocusGained)] := by
  have h := (pointer_press_focus
    ⟨⟨[⟨Widget.textInput ⟨"", none, false⟩⟩, ⟨Widget.container⟩],
      some 1, none, some 0⟩, []⟩
    (by intro o ho; simp at ho; subst ho; decide)).1 1 rfl (by decide)
  have h2 := h.2.2 (by decide)
  exact ⟨h.1, h2.1, h2.2⟩

/-- C7: key-up events produce no widget event and are unconsumed; with
no focused node, or a key outside the closed vocabulary (including any
multi-character input), a key-down produces no widget event and is
unconsumed; every mapped event lies in the closed vocabulary; and a
mapped key-down with a focused node delivers exactly that event to the
focused widget and is consumed. -/
theorem keyboard_routing :
    (∀ (app : SkinApp) (key : Key),
       onKeyboardInput app false key = ⟨app, [], false, []⟩)
    ∧ (∀ (app : SkinApp) (key : Key), app.tree.focused = none →
         onKeyboardInput app true key = ⟨app, [], false, []⟩)
    ∧ (∀ (app : SkinApp) (key : Key), mapKey key = none →
         onKeyboardInput app true key = ⟨app, [], false, []⟩)
    ∧ (∀ (key : Key) (ev : WidgetEvent), mapKey key = some ev → inVocabulary ev)
    ∧ (∀ s : String, s.data.length ≠ 1 → mapKey (Key.Character s) = none)
    ∧ (∀ (app : SkinApp) (f : NodeId) (key : Key) (ev : WidgetEvent),
         app.tree.focused = some f → mapKey key = some ev →
         f < app.tree.nodes.length →
         (onKeyboardInput app true key).trace = [(f, ev)]
         ∧ (onKeyboardInput app true key).consumed = true) := by
  refine ⟨?_, ?_, ?_, ?_, ?_, ?_⟩
  · intro app key
    rfl
  · intro app key hf
    unfold onKeyboardInput
    rw [hf]
    rfl
  · intro app key hm
    unfold onKeyboardInput
    cases app.tree.focused with
    | none => rfl
    | some f => rw [hm]; rfl
  · intro key ev hm
    cases key with
    | Named n =>
      cases n <;> simp [mapKey] at hm <;> subst hm
      · exact Or.inl ⟨KeyCode.Backspace, rfl⟩
      · exact Or.inl ⟨KeyCode.Delete, rfl⟩
      · exact Or.inl ⟨KeyCode.Left, rfl⟩
      · exact Or.inl ⟨KeyCode.Right, rfl⟩
      · exact Or.inl ⟨KeyCode.Home, rfl⟩
      · exact Or.inl ⟨KeyCode.End, rfl⟩
      · exact Or.inl ⟨KeyCode.Enter, rfl⟩
      · exact Or.inr ⟨Char.ofNat 32, rfl, by decide⟩
    | Character s =>
      rcases hs : s.data with _ | ⟨c, _ | ⟨d, t⟩⟩
      · simp [mapKey, hs] at hm
      · simp only [mapKey, hs] at hm
        by_cases hc : 32 ≤ c.toNat ∧ c.toNat ≤ 126
        · rw [if_pos hc] at hm
          exact Or.inr ⟨c, (Option.some.inj hm).symm ▸ rfl, hc.1, hc.2⟩
        · rw [if_neg hc] at hm
          cases hm
      · simp [mapKey, hs] at hm
    | Other => simp [mapKey] at hm
  · intro s hs
    rcases hd : s.data with _ | ⟨c, _ | ⟨d, t⟩⟩
    · simp [mapKey, hd]
    · rw [hd] at hs; simp at hs
    · simp [mapKey, hd]
  · intro app f key ev hf hm hlen
    have hnode : app.tree.nodes[f]? = some (app.tree.nodes.get ⟨f, hlen⟩) :=
      List.getElem?_eq_getElem hlen
    constructor
    · simp [onKeyboardInput, hf, hm, deliver, hnode]
    · simp [onKeyboardInput, hf, hm, deliver, hnode]

/-- C7 witness: concrete instances — a key-up, a press with no focus,
an unrecognized key, an out-of-range character, a multi-character
input, and a delivered printable character. -/
theorem keyboard_routing_witness :
    (onKeyboardInput ⟨⟨[⟨Widget.container⟩], none, none, none⟩, []⟩ false
        (Key.Named NamedKey.Enter)
      = ⟨⟨⟨[⟨Widget.container⟩], none, none, none⟩, []⟩, [], false, []⟩)
    ∧ (onKeyboardInput ⟨⟨[⟨Widget.container⟩], none, none, none⟩, []⟩ true
        (Key.Named NamedKey.Other)
      = ⟨⟨⟨[⟨Widget.container⟩], none, none, none⟩, []⟩, [], false, []⟩)
    ∧ mapKey (Key.Character "ab") = none
    ∧ inVocabulary (WidgetEvent.CharInput (Char.ofNat 97))
    ∧ (onKeyboardInput
        ⟨⟨[⟨Widget.textInput ⟨"", none, false⟩⟩], none, none, some 0⟩, []⟩ true
        (Key.Character "a")).trace = [(0, WidgetEvent.CharInput (Char.ofNat 97))] := by
  refine ⟨?_, ?_, ?_, ?_, ?_⟩
  · exact keyboard_routing.1 ⟨⟨[⟨Widget.container⟩], none, none, none⟩, []⟩
      (Key.Named NamedKey.Enter)
  · exact keyboard_routing.2.1 ⟨⟨[⟨Widget.container⟩], none, none, none⟩, []⟩
      (Key.Named NamedKey.Other) rfl
  · exact keyboard_routing.2.2.2.2.1 "ab" (by decide)
  · exact keyboard_routing.2.2.2.1 (Key.Character "a")
      (WidgetEvent.CharInput (Char.ofNat 97)) (by decide)
  · exact (keyboard_routing.2.2.2.2.2
      ⟨⟨[⟨Widget.textInput ⟨"", none, false⟩⟩], none, none, some 0⟩, []⟩ 0
      (Key.Character "a") (WidgetEvent.CharInput (Char.ofNat 97))
      rfl (by decide) (by decide)).1

/-- C5 counterexample: two dirty TextInputs share the binding key "k"
with texts "a" and "b"; after the sync the store holds "b" under "k",
so the first widget does not have its current text stored under its
binding key, refuting the claim as stated. -/
theorem sync_inputs_overwrite_cex :
    ((⟨[⟨Widget.textInput ⟨"a", some "k", true⟩⟩,
        ⟨Widget.textInput ⟨"b", some "k", true⟩⟩], none, none, none⟩ : UiTree)).nodes[0]?
      = some ⟨Widget.textInput ⟨"a", some "k", true⟩⟩
    ∧ (sync_inputs_to_store
        ⟨[⟨Widget.textInput ⟨"a", some "k", true⟩⟩,
          ⟨Widget.textInput ⟨"b", some "k", true⟩⟩], none, none, none⟩ []).2.get "k"
      ≠ some (Value.string "a")
    ∧ (sync_inputs_to_store
        ⟨[⟨Widget.textInput ⟨"a", some "k", true⟩⟩,
          ⟨Widget.textInput ⟨"b", some "k", true⟩⟩], none, none, none⟩ []).2.get "k"
      = some (Value.string "b") := by
  refine ⟨rfl, ?_, ?_⟩ <;> decide

/-- C5 (amended): provided no two dirty, bound TextInputs share a
binding key, every TextInput that was dirty with a binding has its text
stored in the Store under its binding key after one inputs→store sync;
and (unconditionally on bindings) every TextInput reports not-dirty
afterward. -/
theorem sync_inputs_writes_and_cleans (tree : UiTree) (store : Store)
    (hnd : ((pendingWrites tree.nodes).map Prod.fst).Nodup) :
    (∀ (id : Nat) (ti : TextInput) (b : String),
       tree.nodes[id]? = some ⟨Widget.textInput ti⟩ → ti.dirty = true →
       ti.binding = some b →
       (sync_inputs_to_store tree store).2.get b = some (Value.string ti.text))
    ∧ (∀ (id : Nat) (ti : TextInput),
         (sync_inputs_to_store tree store).1.nodes[id]?
           = some ⟨Widget.textInput ti⟩ →
         ti.dirty = false) := by
  have hs : sync_inputs_to_store tree store
      = ({ tree with nodes := tree.nodes.map cleanInputNode },
         applyWrites (pendingWrites tree.nodes) store) := by
    unfold sync_inputs_to_store
    rw [syncInputNodes_spec]
  constructor
  · intro id ti b hid hd hb
    have hmem : (⟨Widget.textInput ti⟩ : Node) ∈ tree.nodes := List.getElem?_mem hid
    have hw : (b, ti.text) ∈ pendingWrites tree.nodes :=
      List.mem_filterMap.mpr ⟨⟨Widget.textInput ti⟩, hmem, by simp [hd, hb]⟩
    rw [hs]
    exact applyWrites_get_of_mem _ _ _ _ hnd hw
  · intro id ti hid
    rw [hs] at hid
    simp only [List.getElem?_map] at hid
    cases hn : tree.nodes[id]? with
    | none => rw [hn] at hid; cases hid
    | some n =>
      rw [hn] at hid
      simp only [Option.map_some'] at hid
      have hcl : cleanInputNode n = ⟨Widget.textInput ti⟩ := Option.some.inj hid
      obtain ⟨w⟩ := n
      cases w with
      | textInput ti0 =>
        obtain ⟨tx, bn, dt⟩ := ti0
        cases dt
        · have h2 : (⟨tx, bn, false⟩ : TextInput) = ti := by
            have h1 : Widget.textInput ⟨tx, bn, false⟩ = Widget.textInput ti :=
              congrArg Node.widget hcl
            injection h1
          rw [← h2]
        · have h2 : (⟨tx, bn, false⟩ : TextInput) = ti := by
            have h1 : Widget.textInput ⟨tx, bn, false⟩ = Widget.textInput ti :=
              congrArg Node.widget hcl
            injection h1
          rw [← h2]
      | staticText st =>
        exact Widget.noConfusion
          (show Widget.staticText st = Widget.textInput ti from congrArg Node.widget hcl)
      | button b =>
        exact Widget.noConfusion
          (show Widget.button b = Widget.textInput ti from congrArg Node.widget hcl)
      | container =>
        exact Widget.noConfusion
          (show Widget.container = Widget.textInput ti from congrArg Node.widget hcl)

/-- C5 witness: a single dirty bound TextInput has its text stored
under its binding key and comes out clean. -/
theorem sync_inputs_writes_and_cleans_witness :
    (((pendingWrites [⟨Widget.textInput ⟨"42", some "x", true⟩⟩]).map Prod.fst).Nodup)
    ∧ (sync_inputs_to_store
        ⟨[⟨Widget.textInput ⟨"42", some "x", true⟩⟩], none, none, none⟩ []).2.get "x"
      = some (Value.string "42")
    ∧ (⟨"42", some "x", false⟩ : TextInput).dirty = false := by
  refine ⟨by decide, ?_, ?_⟩
  · exact (sync_inputs_writes_and_cleans
      ⟨[⟨Widget.textInput ⟨"42", some "x", true⟩⟩], none, none, none⟩ []
      (by decide)).1 0 ⟨"42", some "x", true⟩ "x" rfl rfl rfl
  · exact (sync_inputs_writes_and_cleans
      ⟨[⟨Widget.textInput ⟨"42", some "x", true⟩⟩], none, none, none⟩ []
      (by decide)).2 0 ⟨"42", some "x", false⟩ (by decide)

/-- C10: a dirty TextInput with no binding comes out of the
inputs→store sync with a cleared dirty flag while contributing no store
write: the resulting store is the same as for the tree whose
binding-less inputs were already clean. -/
theorem sync_unbound_dirty (tree : UiTree) (store : Store) :
    (∀ (id : Nat) (ti : TextInput),
       tree.nodes[id]? = some ⟨Widget.textInput ti⟩ → ti.dirty = true →
       ti.binding = none →
       (sync_inputs_to_store tree store).1.nodes[id]?
         = some ⟨Widget.textInput { ti with dirty := false }⟩)
    ∧ (sync_inputs_to_store tree store).2
        = (sync_inputs_to_store (scrubUnbound tree) store).2 := by
  have hs : sync_inputs_to_store tree store
      = ({ tree with nodes := tree.nodes.map cleanInputNode },
         applyWrites (pendingWrites tree.nodes) store) := by
    unfold sync_inputs_to_store
    rw [syncInputNodes_spec]
  constructor
  · intro id ti hid hd hb
    rw [hs]
    simp only [List.getElem?_map, hid, Option.map_some']
    simp [cleanInputNode, hd]
  · have hs2 : sync_inputs_to_store (scrubUnbound tree) store
        = ({ scrubUnbound tree with nodes := (scrubUnbound tree).nodes.map cleanInputNode },
           applyWrites (pendingWrites (scrubUnbound tree).nodes) store) := by
      unfold sync_inputs_to_store
      rw [syncInputNodes_spec]
    rw [hs, hs2]
    show applyWrites (pendingWrites tree.nodes) store
      = applyWrites (pendingWrites (tree.nodes.map scrubNode)) store
    rw [pendingWrites_scrubList]

/-- C4: during script execution `app.set` writes go only to the
buffered output table — every prefix of the call sequence leaves the
store untouched; after completion the copy-back maps each output-table
entry into the store (string→String, floating/integer→Number,
boolean→Bool, nil→Null), drops non-primitive entries without touching
the corresponding store key, and leaves keys outside the output table
unchanged. -/
theorem script_execution_buffering (calls : List ApiCall) (store : Store) :
    (∀ pre suf : List ApiCall, calls = pre ++ suf →
       (pre.foldl apiStep { store := store, output := [], logs := [] }).store
         = store)
    ∧ (∀ (b : String) (v : LuaValue),
         (b, v) ∈ (calls.foldl apiStep
             { store := store, output := [], logs := [] }).output →
         (execute_script calls store).get b
           = (match luaToValue v with
              | some w => some w
              | none => store.get b))
    ∧ (∀ b : String,
         b ∉ ((calls.foldl apiStep
             { store := store, output := [], logs := [] }).output.map Prod.fst) →
         (execute_script calls store).get b = store.get b) := by
  have hst : (calls.foldl apiStep
      { store := store, output := [], logs := [] }).store = store :=
    foldl_apiStep_store calls _
  have hnd : ((calls.foldl apiStep
      { store := store, output := [], logs := [] }).output.map Prod.fst).Nodup :=
    output_keys_nodup calls _ (by simp)
  have hexec : execute_script calls store
      = copyOutputs (calls.foldl apiStep
          { store := store, output := [], logs := [] }).output store := by
    simp only [execute_script]
    rw [hst]
  refine ⟨?_, ?_, ?_⟩
  · intro pre suf _
    exact foldl_apiStep_store pre _
  · intro b v hm
    rw [hexec]
    exact copyOutputs_get_of_mem _ _ _ _ hnd hm
  · intro b hb
    rw [hexec]
    exact copyOutputs_get_of_not_mem _ _ _ hb

/-- C4 witness: a script that sets a string key and a table key against
a one-entry store: the execution prefix leaves the store unchanged, the
string lands in the store, the table entry is dropped and the untouched
key survives. -/
theorem script_execution_buffering_witness :
    (([ApiCall.set "x" (LuaValue.Str "hi")].foldl apiStep
        { store := [("y", Value.bool true)], output := [], logs := [] }).store
      = [("y", Value.bool true)])
    ∧ (execute_script
        [ApiCall.set "x" (LuaValue.Str "hi"), ApiCall.set "t" LuaValue.Table]
        [("y", Value.bool true)]).get "x" = some (Value.string "hi")
    ∧ (execute_script
        [ApiCall.set "x" (LuaValue.Str "hi"), ApiCall.set "t" LuaValue.Table]
        [("y", Value.bool true)]).get "t"
      = Store.get [("y", Value.bool true)] "t"
    ∧ (execute_script
        [ApiCall.set "x" (LuaValue.Str "hi"), ApiCall.set "t" LuaValue.Table]
        [("y", Value.bool true)]).get "y"
      = Store.get [("y", Value.bool true)] "y" := by
  refine ⟨?_, ?_, ?_, ?_⟩
  · exact (script_execution_buffering
      [ApiCall.set "x" (LuaValue.Str "hi"), ApiCall.set "t" LuaValue.Table]
      [("y", Value.bool true)]).1
      [ApiCall.set "x" (LuaValue.Str "hi")] [ApiCall.set "t" LuaValue.Table] rfl
  · have h := (script_execution_buffering
      [ApiCall.set "x" (LuaValue.Str "hi"), ApiCall.set "t" LuaValue.Table]
      [("y", Value.bool true)]).2.1 "x" (LuaValue.Str "hi") (by decide)
    exact h.trans (by decide)
  · exact (script_execution_buffering
      [ApiCall.set "x" (LuaValue.Str "hi"), ApiCall.set "t" LuaValue.Table]
      [("y", Value.bool true)]).2.1 "t" LuaValue.Table (by decide)
  · exact (script_execution_buffering
      [ApiCall.set "x" (LuaValue.Str "hi"), ApiCall.set "t" LuaValue.Table]
      [("y", Value.bool true)]).2.2 "y" (by decide)

/-- C10 witness: a single dirty, binding-less TextInput is marked clean
and the store outcome matches the pre-scrubbed tree's outcome. -/
theorem sync_unbound_dirty_witness :
    (sync_inputs_to_store
        ⟨[⟨Widget.textInput ⟨"tmp", none, true⟩⟩], none, none, none⟩
        [("a", Value.string "v")]).1.nodes[0]?
      = some ⟨Widget.textInput ⟨"tmp", none, false⟩⟩
    ∧ (sync_inputs_to_store
        ⟨[⟨Widget.textInput ⟨"tmp", none, true⟩⟩], none, none, none⟩
        [("a", Value.string "v")]).2
      = (sync_inputs_to_store
          (scrubUnbound ⟨[⟨Widget.textInput ⟨"tmp", none, true⟩⟩], none, none, none⟩)
          [("a", Value.string "v")]).2 :=
  ⟨(sync_unbound_dirty
      ⟨[⟨Widget.textInput ⟨"tmp", none, true⟩⟩], none, none, none⟩
      [("a", Value.string "v")]).1 0 ⟨"tmp", none, true⟩ rfl rfl rfl,
   (sync_unbound_dirty
      ⟨[⟨Widget.textInput ⟨"tmp", none, true⟩⟩], none, none, none⟩
      [("a", Value.string "v")]).2⟩

end Crix
